import Mathlib

/-!
Shallow embedding of `src/include/igl/copyleft/boolean/mesh_boolean.cpp`,
libigl's winding-number mesh boolean engine, together with proofs about the
behaviour of its components: mesh merging, winding-table padding, the keep
classifier, duplicate-facet resolution and the `mesh_boolean` dispatch.

Machine integers only ever hold small indices and winding numbers here, so
they are modelled by `ℕ` / `ℤ`; Eigen matrices become lists of rows; output
parameters become return values; a failing C `assert` becomes an error value
of an `Except`.
-/

deriving instance DecidableEq for Except

namespace IglBoolean

/-- Vertices of the exact-arithmetic kernel (`CGAL::Epeck` holds exact rational
coordinates for rational inputs) are modelled as rational 3D points.  No claim
computes with coordinates; they are only carried, concatenated and compacted. -/
abbrev Vertex := ℚ × ℚ × ℚ

/-- A facet: a triple of vertex indices (one row of an Eigen face matrix). -/
abbrev Face := ℕ × ℕ × ℕ

/-- Default facet used by list `getD` lookups (never read at valid indices). -/
def dFace : Face := (0, 0, 0)

/-- Default vertex used by list `getD` lookups (never read at valid indices). -/
def dVert : Vertex := (0, 0, 0)

instance : DecidableEq Vertex := instDecidableEqProd

instance : DecidableEq (List Vertex × List Face) := instDecidableEqProd

instance : DecidableEq ((List Vertex × List Face) × List ℕ) := instDecidableEqProd

/-- Error outcomes of the engine: the `std::runtime_error` thrown on an
unrecognized boolean type (source line 338), and a failing C `assert`,
which is modelled as a loud error. -/
inductive MBError where
  | invalidOperation : MBError
  | assertFail : String → MBError
  deriving DecidableEq

/-- Winding-number table returned by the external propagator
(`igl::copyleft::cgal::propagate_winding_numbers`): a column count plus one row
per facet.  The core reads entries 0..3 of each row. -/
structure WMat where
  cols : ℕ
  data : List (List ℤ)
  deriving DecidableEq

/-- Type of the injected self-intersection resolver collaborator
(`resolve_func` in the source): mesh in, resolved mesh plus provenance out. -/
abbrev ResolveFunc := List Vertex → List Face → List Vertex × List Face × List ℕ

/-- Type of the external winding-number propagator collaborator. -/
abbrev PropagateFunc := List Vertex → List Face → List ℕ → WMat

/-- Source line 82: shift every index of a facet of mesh B by `|VA|`. -/
def shiftFace (n : ℕ) (f : Face) : Face := (f.1 + n, f.2.1 + n, f.2.2 + n)

/-- Source lines 79-82 (`resolve_intersections`): combine mesh A with mesh B:
vertex buffers are concatenated, `FA` is kept unchanged and `FB` has every
index shifted by `|VA|`. -/
def combineVF (VA : List Vertex) (FA : List Face) (VB : List Vertex)
    (FB : List Face) : List Vertex × List Face :=
  (VA ++ VB, FA ++ FB.map (shiftFace VA.length))

/-- Source lines 70-84: merge the two meshes and hand the combined mesh to the
injected resolver. -/
def resolve_intersections (resolve_fun : ResolveFunc) (VA : List Vertex)
    (FA : List Face) (VB : List Vertex) (FB : List Face) :
    List Vertex × List Face × List ℕ :=
  let VF := combineVF VA FA VB FB
  resolve_fun VF.1 VF.2

/-- Source lines 216-217: per-facet labels — a facet is labeled `0` when its
provenance index lies below `|FA|` (it came from solid A) and `1` otherwise. -/
def mkLabels (nFA : ℕ) (CJ : List ℕ) : List ℕ :=
  CJ.map (fun j => if j < nFA then 0 else 1)

/-- Modelled from the spec: the UNION reduction of
`BinaryWindingNumberOperations.h` (a repository header not under src/):
inside iff `wA > 0 OR wB > 0`. -/
def BinaryUnion (wA wB : ℤ) : ℤ := if 0 < wA ∨ 0 < wB then 1 else 0

/-- Modelled from the spec: the INTERSECT reduction of
`BinaryWindingNumberOperations.h` (not under src/): inside iff
`wA > 0 AND wB > 0`. -/
def BinaryIntersect (wA wB : ℤ) : ℤ := if 0 < wA ∧ 0 < wB then 1 else 0

/-- Modelled from the spec: the MINUS reduction of
`BinaryWindingNumberOperations.h` (not under src/): inside iff
`wA > 0 AND NOT (wB > 0)`. -/
def BinaryMinus (wA wB : ℤ) : ℤ := if 0 < wA ∧ ¬ 0 < wB then 1 else 0

/-- Modelled from the spec: the XOR reduction of
`BinaryWindingNumberOperations.h` (not under src/): inside iff exactly one of
`wA > 0`, `wB > 0` holds. -/
def BinaryXor (wA wB : ℤ) : ℤ :=
  if (0 < wA ∧ ¬ 0 < wB) ∨ (¬ 0 < wA ∧ 0 < wB) then 1 else 0

/-- Modelled from the spec: the RESOLVE mode performs no reduction and its
classification is not used (`KeepAll` ignores the verdicts entirely). -/
def BinaryResolve (wA wB : ℤ) : ℤ := 0

/-- Modelled from the spec: the `KeepInside` policy of
`BinaryWindingNumberOperations.h` (not under src/): if `w_in = 1` and
`w_out = 0` keep with original orientation (+1); if `w_out = 1` and
`w_in = 0` keep reversed (−1); otherwise drop (0). -/
def KeepInside (w_out w_in : ℤ) : ℤ :=
  if w_in = 1 ∧ w_out = 0 then 1
  else if w_out = 1 ∧ w_in = 0 then -1
  else 0

/-- Modelled from the spec: the `KeepAll` policy of
`BinaryWindingNumberOperations.h` (not under src/): always +1, every facet is
retained unchanged. -/
def KeepAll (w_out w_in : ℤ) : ℤ := 1

/-- Source lines 220-227: a 2-column winding table is padded with two zero
columns (after asserting `FB.rows() == 0`); otherwise the code asserts the
table has 4 columns.  Failing asserts are modelled as errors. -/
def padW (W : WMat) (nFB : ℕ) : Except MBError WMat :=
  if W.cols = 2 then
    if nFB ≠ 0 then .error (.assertFail "FB.rows() == 0")
    else .ok ⟨4, W.data.map (fun row => row ++ [0, 0])⟩
  else if W.cols = 4 then .ok W
  else .error (.assertFail "W.cols() == 4")

/-- Source lines 230-237: reduce the four winding numbers of each facet to the
pair `(w_out_result, w_in_result)` by applying the operation to columns
`(0, 2)` and `(1, 3)`. -/
def windPairs (op : ℤ → ℤ → ℤ) (W : WMat) : List (ℤ × ℤ) :=
  W.data.map (fun row =>
    (op (row.getD 0 0) (row.getD 2 0), op (row.getD 1 0) (row.getD 3 0)))

/-- Source lines 240-254: boundary extraction.  Facet `i` is recorded as the
signed index `+(i+1)` when the keep policy returns a positive value (keep with
original orientation) and `-(i+1)` when it returns a negative value (keep
reversed); a zero verdict drops the facet. -/
def selectFaces (keep : ℤ → ℤ → ℤ) (Wr : List (ℤ × ℤ)) : List ℤ :=
  (List.range Wr.length).filterMap (fun i =>
    if 0 < keep (Wr.getD i (0, 0)).1 (Wr.getD i (0, 0)).2 then
      some ((i : ℤ) + 1)
    else if keep (Wr.getD i (0, 0)).1 (Wr.getD i (0, 0)).2 < 0 then
      some (-((i : ℤ) + 1))
    else none)

/-- Eigen's `row.reverse()` on a 3-entry row: `(a,b,c)` becomes `(c,b,a)`. -/
def revFace (f : Face) : Face := (f.2.2, f.2.1, f.1)

/-- Source lines 256-268: materialize the selected facets, reversing the
vertex order of negatively selected ones, and carry their provenance. -/
def buildKept (F : List Face) (CJ : List ℕ) (selected : List ℤ) :
    List Face × List ℕ :=
  (selected.map (fun s =>
      if 0 < s then F.getD (s.natAbs - 1) dFace
      else revFace (F.getD (s.natAbs - 1) dFace)),
   selected.map (fun s => CJ.getD (s.natAbs - 1) 0))

/-- Source lines 112-121: does facet `f` equal facet `g` up to one of the three
cyclic rotations (i.e. with the same cyclic orientation)? -/
def cyclicEq (f g : Face) : Bool :=
  (f.1 == g.1 && f.2.1 == g.2.1 && f.2.2 == g.2.2) ||
  (f.1 == g.2.1 && f.2.1 == g.2.2 && f.2.2 == g.1) ||
  (f.1 == g.2.2 && f.2.1 == g.1 && f.2.2 == g.2.1)

/-- The unordered vertex-triple identity of a facet: its three indices as a
multiset.  This is the grouping key of `igl::unique_simplices`. -/
def key (f : Face) : Multiset ℕ := {f.1, f.2.1, f.2.2}

/-- Helper of `dedupFirst`: drop the values already in `seen`, keeping the
first occurrence of every new value. -/
def dedupFirstAux {α : Type} [DecidableEq α] (seen : List α) :
    List α → List α
  | [] => []
  | a :: l =>
    if a ∈ seen then dedupFirstAux seen l
    else a :: dedupFirstAux (a :: seen) l

/-- First-occurrence deduplication: keeps the first occurrence of every value,
in input order. -/
def dedupFirst {α : Type} [DecidableEq α] (l : List α) : List α :=
  dedupFirstAux [] l

/-- Modelled from the spec: `igl::unique_simplices` (repository code not under
src/) canonicalizes facets by unordered vertex-triple identity; the groups are
listed in first-occurrence order, per the spec's determinism requirement. -/
def faceKeys (F1 : List Face) : List (Multiset ℕ) := dedupFirst (F1.map key)

/-- The occurrences of the duplicate group with identity `k`: pairs of facet
index and facet, in input order (the `uF2F` bucket of source lines 105-125). -/
def members (F1 : List Face) (k : Multiset ℕ) : List (ℕ × Face) :=
  (List.range F1.length).filterMap (fun i =>
    if key (F1.getD i dFace) = k then some (i, F1.getD i dFace) else none)

/-- The representative of a duplicate group: its first occurrence. -/
def repFace (F1 : List Face) (k : Multiset ℕ) : Face :=
  ((members F1 k).headD (0, dFace)).2

/-- The input index of a duplicate group's first occurrence. -/
def firstOccIdx (F1 : List Face) (k : Multiset ℕ) : ℕ :=
  ((members F1 k).headD (0, dFace)).1

/-- Source line 122: occurrence `(i, f)` is stored as the signed value
`(i+1) * (consistent ? 1 : -1)` where consistency is cyclic equality with the
group representative. -/
def encSigned (rep : Face) (p : ℕ × Face) : ℤ :=
  if cyclicEq p.2 rep then (p.1 : ℤ) + 1 else -((p.1 : ℤ) + 1)

/-- The `uF2F` bucket of a group: signed occurrence references in input
order. -/
def signedMembers (F1 : List Face) (k : Multiset ℕ) : List ℤ :=
  (members F1 k).map (encSigned (repFace F1 k))

/-- Source line 123: the group's signed count — consistent occurrences count
+1, reversed ones −1. -/
def countsOf (F1 : List Face) (k : Multiset ℕ) : ℤ :=
  ((members F1 k).map
    (fun p => if cyclicEq p.2 (repFace F1 k) then (1 : ℤ) else -1)).sum

/-- Source line 124: the group's occurrence count. -/
def ucountsOf (F1 : List Face) (k : Multiset ℕ) : ℕ := (members F1 k).length

/-- Source lines 128-156: resolve one duplicate group.  A singleton group keeps
its sole facet; signed count +1 keeps the first consistent occurrence; signed
count −1 keeps the first reversed occurrence; signed count 0 keeps nothing; any
other signed count fails the `assert(counts[i] == 0)`. -/
def keptOfGroup (F1 : List Face) (k : Multiset ℕ) : Except MBError (List ℕ) :=
  let signed := signedMembers F1 k
  if ucountsOf F1 k = 1 then .ok [(signed.headD 0).natAbs - 1]
  else if countsOf F1 k = 1 then
    match signed.find? (fun s => decide (0 < s)) with
    | some s => .ok [s.natAbs - 1]
    | none => .error (.assertFail "found")
  else if countsOf F1 k = -1 then
    match signed.find? (fun s => decide (s < 0)) with
    | some s => .ok [s.natAbs - 1]
    | none => .error (.assertFail "found")
  else if countsOf F1 k = 0 then .ok []
  else .error (.assertFail "counts[i] == 0")

/-- Resolve every duplicate group, in group order, concatenating the kept
facet indices (the `kept_faces` vector of source lines 127-156). -/
def collectKept (F1 : List Face) : List (Multiset ℕ) → Except MBError (List ℕ)
  | [] => .ok []
  | k :: ks =>
    match keptOfGroup F1 k with
    | .error e => .error e
    | .ok l =>
      match collectKept F1 ks with
      | .error e => .error e
      | .ok rest => .ok (l ++ rest)

/-- The full kept-facet index list of `resolve_duplicated_faces`. -/
def keptIndices (F1 : List Face) : Except MBError (List ℕ) :=
  collectKept F1 (faceKeys F1)

/-- Source lines 91-165: collapse exact-duplicate facets by signed voting and
rebuild the facet and provenance buffers from the kept indices (source lines
158-164). -/
def resolve_duplicated_faces (F1 : List Face) (J1 : List ℕ) :
    Except MBError (List Face × List ℕ) :=
  match keptIndices F1 with
  | .error e => .error e
  | .ok ks => .ok (ks.map (fun i => F1.getD i dFace),
                   ks.map (fun i => J1.getD i 0))

/-- Apply an index remapping to all three entries of a facet. -/
def mapFace (m : ℕ → ℕ) (f : Face) : Face := (m f.1, m f.2.1, m f.2.2)

/-- The vertex indices referenced by a facet list, in ascending order. -/
def refVertices (n : ℕ) (F : List Face) : List ℕ :=
  (List.range n).filter (fun i =>
    F.any (fun f => f.1 == i || f.2.1 == i || f.2.2 == i))

/-- Modelled from the spec: `igl::remove_unreferenced` (repository code not
under src/) — the VertexCompactor collaborator.  It drops vertices that `F`
does not reference, keeps the referenced ones in their original order, and
remaps the facet indices accordingly, preserving facet order. -/
def remove_unreferenced (V : List Vertex) (F : List Face) :
    List Vertex × List Face :=
  let refs := refVertices V.length F
  (refs.map (fun i => V.getD i dVert),
   F.map (mapFace (fun i => refs.indexOf i)))

/-- Source lines 182-286 (`per_face_winding_number_binary_operation`), without
the provenance output: merge and resolve the meshes, propagate winding
numbers, pad the table, reduce to per-facet verdicts, extract the boundary,
collapse duplicates and compact vertices. -/
def pfwnbo_core (op keep : ℤ → ℤ → ℤ) (resolve_fun : ResolveFunc)
    (propagate : PropagateFunc) (VA : List Vertex) (FA : List Face)
    (VB : List Vertex) (FB : List Face) :
    Except MBError (List Vertex × List Face) :=
  let r := resolve_intersections resolve_fun VA FA VB FB
  let Vr := r.1
  let Fr := r.2.1
  let CJ := r.2.2
  let labels := mkLabels FA.length CJ
  let W0 := propagate Vr Fr labels
  if W0.data.length ≠ Fr.length then .error (.assertFail "W.rows() == num_faces")
  else
    match padW W0 FB.length with
    | .error e => .error e
    | .ok W =>
      let Wr := windPairs op W
      let kept := buildKept Fr CJ (selectFaces keep Wr)
      match resolve_duplicated_faces kept.1 kept.2 with
      | .error e => .error e
      | .ok GJ => .ok (remove_unreferenced Vr GJ.1)

/-- The full `per_face_winding_number_binary_operation`: its provenance output
parameter `J` is shadowed by a local `J` in the source (line 274), so the
caller's `J` is passed through untouched. -/
def per_face_winding_number_binary_operation (op keep : ℤ → ℤ → ℤ)
    (resolve_fun : ResolveFunc) (propagate : PropagateFunc) (VA : List Vertex)
    (FA : List Face) (VB : List Vertex) (FB : List Face) (J0 : List ℕ) :
    Except MBError ((List Vertex × List Face) × List ℕ) :=
  (pfwnbo_core op keep resolve_fun propagate VA FA VB FB).map (fun vf => (vf, J0))

/-- Modelled from the spec: the `MeshBooleanType` enumeration lives in
`MeshBooleanType.h`, which is not under src/.  The spec recognizes exactly five
operations; the enum's underlying value is modelled as a natural number with
the five recognized codes below, any other value being unrecognized. -/
def MESH_BOOLEAN_TYPE_UNION : ℕ := 0

/-- Modelled from the spec: the INTERSECT code of `MeshBooleanType`. -/
def MESH_BOOLEAN_TYPE_INTERSECT : ℕ := 1

/-- Modelled from the spec: the MINUS code of `MeshBooleanType`. -/
def MESH_BOOLEAN_TYPE_MINUS : ℕ := 2

/-- Modelled from the spec: the XOR code of `MeshBooleanType`. -/
def MESH_BOOLEAN_TYPE_XOR : ℕ := 3

/-- Modelled from the spec: the RESOLVE code of `MeshBooleanType`. -/
def MESH_BOOLEAN_TYPE_RESOLVE : ℕ := 4

/-- Source lines 310-339: dispatch on the boolean type, pairing each
recognized operation with its winding reduction and keep policy; any other
type value throws (`InvalidOperation`) before any computation. -/
def mesh_boolean_core (resolve_fun : ResolveFunc) (propagate : PropagateFunc)
    (VA : List Vertex) (FA : List Face) (VB : List Vertex) (FB : List Face)
    (btype : ℕ) : Except MBError (List Vertex × List Face) :=
  if btype = MESH_BOOLEAN_TYPE_UNION then
    pfwnbo_core BinaryUnion KeepInside resolve_fun propagate VA FA VB FB
  else if btype = MESH_BOOLEAN_TYPE_INTERSECT then
    pfwnbo_core BinaryIntersect KeepInside resolve_fun propagate VA FA VB FB
  else if btype = MESH_BOOLEAN_TYPE_MINUS then
    pfwnbo_core BinaryMinus KeepInside resolve_fun propagate VA FA VB FB
  else if btype = MESH_BOOLEAN_TYPE_XOR then
    pfwnbo_core BinaryXor KeepInside resolve_fun propagate VA FA VB FB
  else if btype = MESH_BOOLEAN_TYPE_RESOLVE then
    pfwnbo_core BinaryResolve KeepAll resolve_fun propagate VA FA VB FB
  else .error .invalidOperation

/-- Source lines 297-340: the `mesh_boolean` overload taking an explicit
resolver.  As in `per_face_winding_number_binary_operation`, the provenance
output parameter is passed through untouched. -/
def mesh_boolean (resolve_fun : ResolveFunc) (propagate : PropagateFunc)
    (VA : List Vertex) (FA : List Face) (VB : List Vertex) (FB : List Face)
    (btype : ℕ) (J0 : List ℕ) :
    Except MBError ((List Vertex × List Face) × List ℕ) :=
  (mesh_boolean_core resolve_fun propagate VA FA VB FB btype).map
    (fun vf => (vf, J0))

/-- Source lines 342-374: the overload that builds the default resolver
(`igl_resolve`, which wraps the external `remesh_self_intersections`
collaborator, here passed in as `igl_res`) and forwards. -/
def mesh_boolean_default_resolve (igl_res : ResolveFunc)
    (propagate : PropagateFunc) (VA : List Vertex) (FA : List Face)
    (VB : List Vertex) (FB : List Face) (btype : ℕ) (J0 : List ℕ) :
    Except MBError ((List Vertex × List Face) × List ℕ) :=
  mesh_boolean igl_res propagate VA FA VB FB btype J0

/-- Source lines 376-393: the overload without a provenance output — it
allocates a fresh provenance vector, forwards to the provenance-returning
overload and discards the vector. -/
def mesh_boolean_no_provenance (igl_res : ResolveFunc)
    (propagate : PropagateFunc) (VA : List Vertex) (FA : List Face)
    (VB : List Vertex) (FB : List Face) (btype : ℕ) :
    Except MBError (List Vertex × List Face) :=
  let J : List ℕ := []
  (mesh_boolean_default_resolve igl_res propagate VA FA VB FB btype J).map
    (fun r => r.1)

/-- A facet's three vertex indices are pairwise distinct. -/
def faceDistinct (f : Face) : Prop :=
  f.1 ≠ f.2.1 ∧ f.1 ≠ f.2.2 ∧ f.2.1 ≠ f.2.2

/-- A facet's three vertex indices lie below `n`. -/
def faceInBounds (f : Face) (n : ℕ) : Prop :=
  f.1 < n ∧ f.2.1 < n ∧ f.2.2 < n

lemma mem_selectFaces_pos (keep : ℤ → ℤ → ℤ) (Wr : List (ℤ × ℤ)) (i : ℕ)
    (h : i < Wr.length) :
    ((i : ℤ) + 1 ∈ selectFaces keep Wr) ↔
      0 < keep (Wr.getD i (0, 0)).1 (Wr.getD i (0, 0)).2 := by
  unfold selectFaces
  rw [List.mem_filterMap]
  constructor
  · rintro ⟨j, hj, hfj⟩
    rw [List.mem_range] at hj
    by_cases hp : 0 < keep (Wr.getD j (0, 0)).1 (Wr.getD j (0, 0)).2
    · rw [if_pos hp] at hfj
      injection hfj with h'
      have hij : j = i := by omega
      subst hij; exact hp
    · rw [if_neg hp] at hfj
      by_cases hn : keep (Wr.getD j (0, 0)).1 (Wr.getD j (0, 0)).2 < 0
      · rw [if_pos hn] at hfj
        injection hfj with h'
        exfalso; omega
      · rw [if_neg hn] at hfj
        exact absurd hfj (by simp)
  · intro hp
    exact ⟨i, List.mem_range.mpr h, by rw [if_pos hp]⟩

lemma mem_selectFaces_neg (keep : ℤ → ℤ → ℤ) (Wr : List (ℤ × ℤ)) (i : ℕ)
    (h : i < Wr.length) :
    (-((i : ℤ) + 1) ∈ selectFaces keep Wr) ↔
      keep (Wr.getD i (0, 0)).1 (Wr.getD i (0, 0)).2 < 0 := by
  unfold selectFaces
  rw [List.mem_filterMap]
  constructor
  · rintro ⟨j, hj, hfj⟩
    rw [List.mem_range] at hj
    by_cases hp : 0 < keep (Wr.getD j (0, 0)).1 (Wr.getD j (0, 0)).2
    · rw [if_pos hp] at hfj
      injection hfj with h'
      exfalso; omega
    · rw [if_neg hp] at hfj
      by_cases hn : keep (Wr.getD j (0, 0)).1 (Wr.getD j (0, 0)).2 < 0
      · rw [if_pos hn] at hfj
        injection hfj with h'
        have hij : j = i := by omega
        subst hij; exact hn
      · rw [if_neg hn] at hfj
        exact absurd hfj (by simp)
  · intro hn
    have hp : ¬ 0 < keep (Wr.getD i (0, 0)).1 (Wr.getD i (0, 0)).2 := by omega
    exact ⟨i, List.mem_range.mpr h, by rw [if_neg hp, if_pos hn]⟩

lemma filterMap_some_comp_eq_map (g : ℕ → ℤ) (l : List ℕ) :
    l.filterMap (fun i => some (g i)) = l.map g := by
  induction l with
  | nil => rfl
  | cons a l ih => simp [List.filterMap_cons, ih]

/-- C4: for every facet processed under the `KeepInside` policy the facet is
selected iff its reduced outside verdict differs from its reduced inside
verdict — positively (original vertex order) when `w_in = 1, w_out = 0`,
negatively (reversed vertex order) when `w_out = 1, w_in = 0`, and not at all
when the two verdicts agree; under the `KeepAll` policy every facet is
selected positively (kept unchanged). -/
theorem keep_classifier_policies :
    (∀ (Wr : List (ℤ × ℤ)) (i : ℕ), i < Wr.length →
      ∀ wo wi : ℤ, Wr.getD i (0, 0) = (wo, wi) →
      (wo = 0 ∨ wo = 1) → (wi = 0 ∨ wi = 1) →
      ((((i : ℤ) + 1 ∈ selectFaces KeepInside Wr) ∨
        (-((i : ℤ) + 1) ∈ selectFaces KeepInside Wr)) ↔ wo ≠ wi) ∧
      (wi = 1 ∧ wo = 0 → ((i : ℤ) + 1 ∈ selectFaces KeepInside Wr)) ∧
      (wo = 1 ∧ wi = 0 → (-((i : ℤ) + 1) ∈ selectFaces KeepInside Wr)) ∧
      (wo = wi → ¬((i : ℤ) + 1 ∈ selectFaces KeepInside Wr) ∧
                 ¬(-((i : ℤ) + 1) ∈ selectFaces KeepInside Wr))) ∧
    (∀ Wr : List (ℤ × ℤ), selectFaces KeepAll Wr =
      (List.range Wr.length).map (fun n : ℕ => (n : ℤ) + 1)) := by
  constructor
  · intro Wr i h wo wi hw h0 h1
    rw [mem_selectFaces_pos _ _ _ h, mem_selectFaces_neg _ _ _ h, hw]
    rcases h0 with rfl | rfl <;> rcases h1 with rfl | rfl <;>
      norm_num [KeepInside]
  · intro Wr
    unfold selectFaces
    have hF : (fun i : ℕ =>
        if 0 < KeepAll (Wr.getD i (0, 0)).1 (Wr.getD i (0, 0)).2 then
          some ((i : ℤ) + 1)
        else if KeepAll (Wr.getD i (0, 0)).1 (Wr.getD i (0, 0)).2 < 0 then
          some (-((i : ℤ) + 1))
        else none) = (fun i : ℕ => some ((i : ℤ) + 1)) := by
      funext i; simp [KeepAll]
    rw [hF, filterMap_some_comp_eq_map]

/-- C4 witness: on the verdict table `[(0,1),(1,0),(1,1),(0,0)]`, the facet
with `w_out = 0, w_in = 1` is selected with original orientation, and
`KeepAll` selects every facet positively. -/
theorem keep_classifier_policies_witness :
    (0 : ℕ) < ([((0 : ℤ), (1 : ℤ)), (1, 0), (1, 1), (0, 0)] :
        List (ℤ × ℤ)).length ∧
    ([((0 : ℤ), (1 : ℤ)), (1, 0), (1, 1), (0, 0)] :
        List (ℤ × ℤ)).getD 0 (0, 0) = (0, 1) ∧
    ((0 : ℤ) + 1 ∈
      selectFaces KeepInside [((0 : ℤ), (1 : ℤ)), (1, 0), (1, 1), (0, 0)]) ∧
    selectFaces KeepAll [((0 : ℤ), (1 : ℤ)), (1, 0), (1, 1), (0, 0)] =
      (List.range ([((0 : ℤ), (1 : ℤ)), (1, 0), (1, 1), (0, 0)] :
        List (ℤ × ℤ)).length).map (fun n : ℕ => (n : ℤ) + 1) :=
  ⟨by decide, by decide,
   (keep_classifier_policies.1 _ 0 (by decide) 0 1 (by decide)
     (Or.inl rfl) (Or.inr rfl)).2.1 ⟨rfl, rfl⟩,
   keep_classifier_policies.2 _⟩

/-- C6: a call with a boolean-type value that is none of the five recognized
codes fails with `invalidOperation`, independently of the meshes and the
collaborators (no computation is performed). -/
theorem invalid_operation_rejected (resolve_fun : ResolveFunc)
    (propagate : PropagateFunc) (VA : List Vertex) (FA : List Face)
    (VB : List Vertex) (FB : List Face) (btype : ℕ) (J0 : List ℕ)
    (h0 : btype ≠ MESH_BOOLEAN_TYPE_UNION)
    (h1 : btype ≠ MESH_BOOLEAN_TYPE_INTERSECT)
    (h2 : btype ≠ MESH_BOOLEAN_TYPE_MINUS)
    (h3 : btype ≠ MESH_BOOLEAN_TYPE_XOR)
    (h4 : btype ≠ MESH_BOOLEAN_TYPE_RESOLVE) :
    mesh_boolean resolve_fun propagate VA FA VB FB btype J0 =
      .error .invalidOperation := by
  simp [mesh_boolean, mesh_boolean_core, h0, h1, h2, h3, h4, Except.map]

/-- C6 witness: boolean type code 7 is rejected. -/
theorem invalid_operation_rejected_witness :
    ((7 : ℕ) ≠ MESH_BOOLEAN_TYPE_UNION ∧
     (7 : ℕ) ≠ MESH_BOOLEAN_TYPE_INTERSECT ∧
     (7 : ℕ) ≠ MESH_BOOLEAN_TYPE_MINUS ∧
     (7 : ℕ) ≠ MESH_BOOLEAN_TYPE_XOR ∧
     (7 : ℕ) ≠ MESH_BOOLEAN_TYPE_RESOLVE) ∧
    mesh_boolean (fun V F => (V, F, List.range F.length))
      (fun _ F _ => ⟨4, F.map (fun _ => [0, 0, 0, 0])⟩)
      [] [] [] [] 7 [] = .error .invalidOperation :=
  ⟨⟨by decide, by decide, by decide, by decide, by decide⟩,
   invalid_operation_rejected _ _ _ _ _ _ 7 []
     (by decide) (by decide) (by decide) (by decide) (by decide)⟩

/-- C7: the merge step concatenates the vertex buffers, keeps `FA` unchanged,
shifts every index of `FB` by `|VA|`, and labels a facet `0` iff its
provenance index lies below `|FA|`. -/
theorem merge_step_spec (VA : List Vertex) (FA : List Face) (VB : List Vertex)
    (FB : List Face) (CJ : List ℕ) :
    (combineVF VA FA VB FB).1 = VA ++ VB ∧
    (combineVF VA FA VB FB).2 = FA ++ FB.map (shiftFace VA.length) ∧
    (∀ i, i < FA.length →
      ((combineVF VA FA VB FB).2).getD i dFace = FA.getD i dFace) ∧
    (∀ i, i < FB.length →
      ((combineVF VA FA VB FB).2).getD (FA.length + i) dFace =
        shiftFace VA.length (FB.getD i dFace)) ∧
    (mkLabels FA.length CJ).length = CJ.length ∧
    (∀ i, i < CJ.length →
      ((mkLabels FA.length CJ).getD i 1 = 0 ↔ CJ.getD i 0 < FA.length)) := by
  refine ⟨rfl, rfl, ?_, ?_, by simp [mkLabels], ?_⟩
  · intro i hi
    have h1 : i < (FA ++ FB.map (shiftFace VA.length)).length := by
      simp; omega
    rw [show (combineVF VA FA VB FB).2 = FA ++ FB.map (shiftFace VA.length)
        from rfl,
      List.getD_eq_getElem _ _ h1, List.getD_eq_getElem _ _ hi,
      List.getElem_append_left]
  · intro i hi
    have h1 : FA.length + i < (FA ++ FB.map (shiftFace VA.length)).length := by
      simp; omega
    have h2 : i < (FB.map (shiftFace VA.length)).length := by simp [hi]
    rw [show (combineVF VA FA VB FB).2 = FA ++ FB.map (shiftFace VA.length)
        from rfl,
      List.getD_eq_getElem _ _ h1, List.getD_eq_getElem _ _ hi,
      List.getElem_append_right (by omega)]
    simp [Nat.add_sub_cancel_left]
  · intro i hi
    have h1 : i < (mkLabels FA.length CJ).length := by simp [mkLabels, hi]
    rw [List.getD_eq_getElem _ _ h1, List.getD_eq_getElem _ _ hi]
    simp only [mkLabels, List.getElem_map]
    split <;> simp_all

/-- C7 witness: concrete merge of one facet against one facet. -/
theorem merge_step_spec_witness :
    (0 : ℕ) < ([((0 : ℕ), (1 : ℕ), (2 : ℕ))] : List Face).length ∧
    ((combineVF [dVert] [(0, 1, 2)] [dVert] [(0, 1, 2)]).2).getD 0 dFace =
      ([((0 : ℕ), (1 : ℕ), (2 : ℕ))] : List Face).getD 0 dFace ∧
    ((combineVF [dVert] [(0, 1, 2)] [dVert] [(0, 1, 2)]).2).getD
        (([((0 : ℕ), (1 : ℕ), (2 : ℕ))] : List Face).length + 0) dFace =
      shiftFace 1 (([((0 : ℕ), (1 : ℕ), (2 : ℕ))] : List Face).getD 0 dFace) ∧
    ((mkLabels 1 [0, 5]).getD 0 1 = 0 ↔ ([0, 5] : List ℕ).getD 0 0 < 1) :=
  ⟨by decide,
   (merge_step_spec [dVert] [(0, 1, 2)] [dVert] [(0, 1, 2)] [0, 5]).2.2.1 0
     (by decide),
   (merge_step_spec [dVert] [(0, 1, 2)] [dVert] [(0, 1, 2)] [0, 5]).2.2.2.1 0
     (by decide),
   (merge_step_spec [dVert] [(0, 1, 2)] [dVert] [(0, 1, 2)] [0, 5]).2.2.2.2.2 0
     (by decide)⟩

/-- C9: the zero-padding of the winding table is taken only when the
propagator returned a 2-column table; on that branch the code asserts
`FB.rows() == 0`, so a 2-column table in a true two-body operation is an
assertion failure, while a 4-column table passes through unpadded. -/
theorem winding_pad_guard (W : WMat) (nFB : ℕ) (W' : WMat) :
    (W.cols = 2 → 0 < nFB →
      padW W nFB = .error (.assertFail "FB.rows() == 0")) ∧
    (W.cols = 4 → padW W nFB = .ok W) ∧
    (padW W nFB = .ok W' →
      (W.cols = 4 ∧ W' = W) ∨
      (W.cols = 2 ∧ nFB = 0 ∧
        W' = ⟨4, W.data.map (fun row => row ++ [0, 0])⟩)) := by
  refine ⟨?_, ?_, ?_⟩
  · intro h2 hn
    have hn' : nFB ≠ 0 := by omega
    simp [padW, h2, hn']
  · intro h4
    have h2 : W.cols ≠ 2 := by omega
    simp [padW, h2, h4]
  · intro hok
    by_cases h2 : W.cols = 2
    · by_cases hn : nFB = 0
      · right
        unfold padW at hok
        rw [if_pos h2, if_neg (by simp [hn])] at hok
        injection hok with h'
        exact ⟨h2, hn, h'.symm⟩
      · simp [padW, h2, hn] at hok
    · by_cases h4 : W.cols = 4
      · left
        unfold padW at hok
        rw [if_neg h2, if_pos h4] at hok
        injection hok with h'
        exact ⟨h4, h'.symm⟩
      · simp [padW, h2, h4] at hok

/-- C9 witness: a 2-column table with a non-empty `FB` fails the assert, and a
4-column table passes through. -/
theorem winding_pad_guard_witness :
    (WMat.mk 2 [[1, 0]]).cols = 2 ∧ (0 : ℕ) < 1 ∧
    padW ⟨2, [[1, 0]]⟩ 1 = .error (.assertFail "FB.rows() == 0") ∧
    (WMat.mk 4 [[1, 0, 0, 0]]).cols = 4 ∧
    padW ⟨4, [[1, 0, 0, 0]]⟩ 1 = .ok ⟨4, [[1, 0, 0, 0]]⟩ :=
  ⟨rfl, by decide,
   (winding_pad_guard ⟨2, [[1, 0]]⟩ 1 ⟨2, [[1, 0]]⟩).1 rfl (by decide),
   rfl,
   (winding_pad_guard ⟨4, [[1, 0, 0, 0]]⟩ 1 ⟨4, [[1, 0, 0, 0]]⟩).2.1 rfl⟩

lemma mem_dedupFirstAux {α : Type} [DecidableEq α] (seen : List α)
    (l : List α) (a : α) :
    a ∈ dedupFirstAux seen l ↔ a ∈ l ∧ a ∉ seen := by
  induction l generalizing seen with
  | nil => simp [dedupFirstAux]
  | cons b l ih =>
    unfold dedupFirstAux
    by_cases hb : b ∈ seen
    · rw [if_pos hb, ih]
      constructor
      · rintro ⟨h1, h2⟩; exact ⟨List.mem_cons_of_mem _ h1, h2⟩
      · rintro ⟨h1, h2⟩
        rcases List.mem_cons.mp h1 with rfl | h1
        · exact absurd hb h2
        · exact ⟨h1, h2⟩
    · rw [if_neg hb]
      rw [List.mem_cons, ih]
      constructor
      · rintro (rfl | ⟨h1, h2⟩)
        · exact ⟨List.mem_cons_self _ _, hb⟩
        · refine ⟨List.mem_cons_of_mem _ h1, fun hs => h2 ?_⟩
          exact List.mem_cons_of_mem _ hs
      · rintro ⟨h1, h2⟩
        rcases List.mem_cons.mp h1 with rfl | h1
        · exact Or.inl rfl
        · by_cases hab : a = b
          · exact Or.inl hab
          · exact Or.inr ⟨h1, by simp [hab, h2]⟩

lemma nodup_dedupFirstAux {α : Type} [DecidableEq α] (seen : List α)
    (l : List α) : (dedupFirstAux seen l).Nodup := by
  induction l generalizing seen with
  | nil => simp [dedupFirstAux]
  | cons b l ih =>
    unfold dedupFirstAux
    by_cases hb : b ∈ seen
    · rw [if_pos hb]; exact ih seen
    · rw [if_neg hb]
      refine List.nodup_cons.mpr ⟨fun hmem => ?_, ih (b :: seen)⟩
      exact ((mem_dedupFirstAux _ _ _).mp hmem).2 (List.mem_cons_self _ _)

lemma mem_dedupFirst {α : Type} [DecidableEq α] (l : List α) (a : α) :
    a ∈ dedupFirst l ↔ a ∈ l := by
  unfold dedupFirst
  rw [mem_dedupFirstAux]
  simp

lemma nodup_dedupFirst {α : Type} [DecidableEq α] (l : List α) :
    (dedupFirst l).Nodup := nodup_dedupFirstAux [] l

lemma nodup_faceKeys (F1 : List Face) : (faceKeys F1).Nodup :=
  nodup_dedupFirst _

lemma members_spec (F1 : List Face) (k : Multiset ℕ) (p : ℕ × Face) :
    p ∈ members F1 k ↔
      p.1 < F1.length ∧ p.2 = F1.getD p.1 dFace ∧ key p.2 = k := by
  unfold members
  rw [List.mem_filterMap]
  constructor
  · rintro ⟨i, hi, hif⟩
    rw [List.mem_range] at hi
    by_cases hkey : key (F1.getD i dFace) = k
    · rw [if_pos hkey] at hif
      injection hif with h'
      subst h'
      exact ⟨hi, rfl, hkey⟩
    · rw [if_neg hkey] at hif
      exact absurd hif (by simp)
  · rintro ⟨h1, h2, h3⟩
    refine ⟨p.1, List.mem_range.mpr h1, ?_⟩
    rw [← h2, if_pos h3]

lemma exists_member_of_mem_faceKeys (F1 : List Face) (k : Multiset ℕ)
    (hk : k ∈ faceKeys F1) : ∃ p, p ∈ members F1 k := by
  unfold faceKeys at hk
  rw [mem_dedupFirst, List.mem_map] at hk
  obtain ⟨f, hf, hkey⟩ := hk
  obtain ⟨i, hi, hfi⟩ := List.mem_iff_getElem.mp hf
  refine ⟨(i, F1.getD i dFace), (members_spec _ _ _).mpr ⟨hi, rfl, ?_⟩⟩
  rw [List.getD_eq_getElem _ _ hi, hfi]
  exact hkey

lemma encSigned_natAbs (rep : Face) (p : ℕ × Face) :
    (encSigned rep p).natAbs = p.1 + 1 := by
  unfold encSigned
  split <;> omega

lemma encSigned_pos_iff (rep : Face) (p : ℕ × Face) :
    decide (0 < encSigned rep p) = cyclicEq p.2 rep := by
  unfold encSigned
  by_cases hc : cyclicEq p.2 rep
  · rw [if_pos hc, hc]
    simp only [decide_eq_true_eq]
    omega
  · rw [if_neg hc]
    simp only [Bool.not_eq_true] at hc
    rw [hc]
    simp only [decide_eq_false_iff_not]
    omega

lemma encSigned_neg_iff (rep : Face) (p : ℕ × Face) :
    decide (encSigned rep p < 0) = !cyclicEq p.2 rep := by
  unfold encSigned
  by_cases hc : cyclicEq p.2 rep
  · rw [if_pos hc, hc]
    simp only [Bool.not_true, decide_eq_false_iff_not]
    omega
  · rw [if_neg hc]
    simp only [Bool.not_eq_true] at hc
    rw [hc]
    simp only [Bool.not_false, decide_eq_true_eq]
    omega

lemma signed_find?_pos (F1 : List Face) (k : Multiset ℕ) :
    (signedMembers F1 k).find? (fun s => decide (0 < s)) =
      ((members F1 k).find? (fun p => cyclicEq p.2 (repFace F1 k))).map
        (encSigned (repFace F1 k)) := by
  unfold signedMembers
  rw [List.find?_map]
  have hpred : ((fun s : ℤ => decide (0 < s)) ∘ encSigned (repFace F1 k)) =
      (fun p : ℕ × Face => cyclicEq p.2 (repFace F1 k)) := by
    funext p
    exact encSigned_pos_iff _ p
  rw [hpred]

lemma signed_find?_neg (F1 : List Face) (k : Multiset ℕ) :
    (signedMembers F1 k).find? (fun s => decide (s < 0)) =
      ((members F1 k).find? (fun p => !cyclicEq p.2 (repFace F1 k))).map
        (encSigned (repFace F1 k)) := by
  unfold signedMembers
  rw [List.find?_map]
  have hpred : ((fun s : ℤ => decide (s < 0)) ∘ encSigned (repFace F1 k)) =
      (fun p : ℕ × Face => !cyclicEq p.2 (repFace F1 k)) := by
    funext p
    exact encSigned_neg_iff _ p
  rw [hpred]

lemma sum_pm_all_neg (rep : Face) (l : List (ℕ × Face))
    (h : ∀ p ∈ l, ¬ cyclicEq p.2 rep = true) :
    (l.map (fun p => if cyclicEq p.2 rep then (1 : ℤ) else -1)).sum =
      -(l.length : ℤ) := by
  induction l with
  | nil => simp
  | cons p l ih =>
    rw [List.map_cons, List.sum_cons,
      if_neg (h p (List.mem_cons_self _ _)),
      ih (fun q hq => h q (List.mem_cons_of_mem _ hq))]
    simp only [List.length_cons]
    push_cast
    ring

lemma sum_pm_all_pos (rep : Face) (l : List (ℕ × Face))
    (h : ∀ p ∈ l, cyclicEq p.2 rep = true) :
    (l.map (fun p => if cyclicEq p.2 rep then (1 : ℤ) else -1)).sum =
      (l.length : ℤ) := by
  induction l with
  | nil => simp
  | cons p l ih =>
    rw [List.map_cons, List.sum_cons,
      if_pos (h p (List.mem_cons_self _ _)),
      ih (fun q hq => h q (List.mem_cons_of_mem _ hq))]
    simp only [List.length_cons]
    push_cast
    ring

lemma all_inconsistent_counts (F1 : List Face) (k : Multiset ℕ)
    (h : ∀ p ∈ members F1 k, ¬ cyclicEq p.2 (repFace F1 k) = true) :
    countsOf F1 k = -(((members F1 k).length : ℤ)) :=
  sum_pm_all_neg _ _ h

lemma all_consistent_counts (F1 : List Face) (k : Multiset ℕ)
    (h : ∀ p ∈ members F1 k, cyclicEq p.2 (repFace F1 k) = true) :
    countsOf F1 k = ((members F1 k).length : ℤ) :=
  sum_pm_all_pos _ _ h

lemma keptOfGroup_of_ucounts_one (F1 : List Face) (k : Multiset ℕ)
    (h1 : ucountsOf F1 k = 1) :
    keptOfGroup F1 k = .ok [firstOccIdx F1 k] := by
  unfold keptOfGroup
  rw [if_pos h1]
  obtain ⟨p, hp⟩ := List.length_eq_one.mp h1
  unfold signedMembers firstOccIdx
  rw [hp]
  simp [encSigned_natAbs]

lemma keptOfGroup_of_counts_one (F1 : List Face) (k : Multiset ℕ)
    (h1 : ucountsOf F1 k ≠ 1) (hc : countsOf F1 k = 1) :
    ∃ q, (members F1 k).find? (fun p => cyclicEq p.2 (repFace F1 k)) = some q ∧
      keptOfGroup F1 k = .ok [q.1] := by
  rcases hfind : (members F1 k).find?
      (fun p => cyclicEq p.2 (repFace F1 k)) with _ | q
  · exfalso
    rw [List.find?_eq_none] at hfind
    have := all_inconsistent_counts F1 k hfind
    rw [hc] at this
    omega
  · refine ⟨q, hfind, ?_⟩
    unfold keptOfGroup
    rw [if_neg h1, if_pos hc, signed_find?_pos, hfind]
    simp [encSigned_natAbs]

lemma keptOfGroup_of_counts_negone (F1 : List Face) (k : Multiset ℕ)
    (h1 : ucountsOf F1 k ≠ 1) (hc : countsOf F1 k = -1) :
    ∃ q, (members F1 k).find? (fun p => !cyclicEq p.2 (repFace F1 k)) = some q ∧
      keptOfGroup F1 k = .ok [q.1] := by
  rcases hfind : (members F1 k).find?
      (fun p => !cyclicEq p.2 (repFace F1 k)) with _ | q
  · exfalso
    rw [List.find?_eq_none] at hfind
    have hall : ∀ p ∈ members F1 k, cyclicEq p.2 (repFace F1 k) = true := by
      intro p hp
      have := hfind p hp
      simpa using this
    have := all_consistent_counts F1 k hall
    rw [hc] at this
    omega
  · refine ⟨q, hfind, ?_⟩
    have hc1 : countsOf F1 k ≠ 1 := by omega
    unfold keptOfGroup
    rw [if_neg h1, if_neg hc1, if_pos hc, signed_find?_neg, hfind]
    simp [encSigned_natAbs]

lemma keptOfGroup_of_counts_zero (F1 : List Face) (k : Multiset ℕ)
    (h1 : ucountsOf F1 k ≠ 1) (hc : countsOf F1 k = 0) :
    keptOfGroup F1 k = .ok [] := by
  unfold keptOfGroup
  rw [if_neg h1, if_neg (by omega : countsOf F1 k ≠ 1),
    if_neg (by omega : countsOf F1 k ≠ -1), if_pos hc]

lemma keptOfGroup_of_counts_other (F1 : List Face) (k : Multiset ℕ)
    (h1 : ucountsOf F1 k ≠ 1) (hc1 : countsOf F1 k ≠ 1)
    (hcm1 : countsOf F1 k ≠ -1) (hc0 : countsOf F1 k ≠ 0) :
    keptOfGroup F1 k = .error (.assertFail "counts[i] == 0") := by
  unfold keptOfGroup
  rw [if_neg h1, if_neg hc1, if_neg hcm1, if_neg hc0]

lemma keptOfGroup_sound (F1 : List Face) (k : Multiset ℕ) (l : List ℕ)
    (h : keptOfGroup F1 k = .ok l) :
    l.length ≤ 1 ∧ ∀ i ∈ l, ∃ p ∈ members F1 k, i = p.1 := by
  by_cases h1 : ucountsOf F1 k = 1
  · rw [keptOfGroup_of_ucounts_one _ _ h1] at h
    injection h with h'
    subst h'
    obtain ⟨p, hp⟩ := List.length_eq_one.mp (h1 : (members F1 k).length = 1)
    refine ⟨by simp, fun i hi => ?_⟩
    rw [List.mem_singleton] at hi
    subst hi
    refine ⟨p, by rw [hp]; exact List.mem_singleton_self p, ?_⟩
    unfold firstOccIdx
    rw [hp]
    rfl
  · by_cases hc1 : countsOf F1 k = 1
    · obtain ⟨q, hfind, heq⟩ := keptOfGroup_of_counts_one _ _ h1 hc1
      rw [heq] at h
      injection h with h'
      subst h'
      refine ⟨by simp, fun i hi => ?_⟩
      rw [List.mem_singleton] at hi
      subst hi
      exact ⟨q, List.mem_of_find?_eq_some hfind, rfl⟩
    · by_cases hcm1 : countsOf F1 k = -1
      · obtain ⟨q, hfind, heq⟩ := keptOfGroup_of_counts_negone _ _ h1 hcm1
        rw [heq] at h
        injection h with h'
        subst h'
        refine ⟨by simp, fun i hi => ?_⟩
        rw [List.mem_singleton] at hi
        subst hi
        exact ⟨q, List.mem_of_find?_eq_some hfind, rfl⟩
      · by_cases hc0 : countsOf F1 k = 0
        · rw [keptOfGroup_of_counts_zero _ _ h1 hc0] at h
          injection h with h'
          subst h'
          simp
        · rw [keptOfGroup_of_counts_other _ _ h1 hc1 hcm1 hc0] at h
          exact Except.noConfusion h

lemma keptOfGroup_keys (F1 : List Face) (k : Multiset ℕ) (l : List ℕ)
    (h : keptOfGroup F1 k = .ok l) :
    ∀ i ∈ l, i < F1.length ∧ key (F1.getD i dFace) = k := by
  intro i hi
  obtain ⟨-, hmem⟩ := keptOfGroup_sound F1 k l h
  obtain ⟨p, hp, rfl⟩ := hmem i hi
  obtain ⟨hp1, hp2, hp3⟩ := (members_spec _ _ _).mp hp
  exact ⟨hp1, by rw [← hp2]; exact hp3⟩

lemma collectKept_mem (F1 : List Face) :
    ∀ (keys : List (Multiset ℕ)) (ks : List ℕ),
      collectKept F1 keys = .ok ks →
      ∀ i ∈ ks, ∃ k ∈ keys, ∃ l, keptOfGroup F1 k = .ok l ∧ i ∈ l := by
  intro keys
  induction keys with
  | nil =>
    intro ks hok i hi
    unfold collectKept at hok
    injection hok with h'
    subst h'
    exact absurd hi (List.not_mem_nil i)
  | cons k keys ih =>
    intro ks hok i hi
    unfold collectKept at hok
    rcases hg : keptOfGroup F1 k with e | l
    · rw [hg] at hok
      exact Except.noConfusion hok
    · rw [hg] at hok
      rcases hr : collectKept F1 keys with e | rest
      · rw [hr] at hok
        exact Except.noConfusion hok
      · rw [hr] at hok
        injection hok with h'
        subst h'
        rcases List.mem_append.mp hi with hil | hir
        · exact ⟨k, List.mem_cons_self _ _, l, hg, hil⟩
        · obtain ⟨k', hk', l', hl', hil'⟩ := ih rest hr i hir
          exact ⟨k', List.mem_cons_of_mem _ hk', l', hl', hil'⟩

lemma collectKept_error (F1 : List Face) :
    ∀ (keys : List (Multiset ℕ)) (k : Multiset ℕ), k ∈ keys →
      ∀ e : MBError, keptOfGroup F1 k = .error e →
      ∃ e', collectKept F1 keys = .error e' := by
  intro keys
  induction keys with
  | nil =>
    intro k hk
    exact absurd hk (List.not_mem_nil k)
  | cons k' keys ih =>
    intro k hk e he
    unfold collectKept
    rcases hg : keptOfGroup F1 k' with e1 | l
    · exact ⟨e1, rfl⟩
    · rcases List.mem_cons.mp hk with rfl | hkrest
      · rw [hg] at he
        exact Except.noConfusion he
      · obtain ⟨e', he'⟩ := ih k hkrest e he
        rw [he']
        exact ⟨e', rfl⟩

lemma collectKept_filter (F1 : List Face) :
    ∀ (keys : List (Multiset ℕ)) (ks : List ℕ),
      collectKept F1 keys = .ok ks → keys.Nodup →
      ∀ k ∈ keys, ∃ l, keptOfGroup F1 k = .ok l ∧
        ks.filter (fun i => decide (key (F1.getD i dFace) = k)) = l := by
  intro keys
  induction keys with
  | nil =>
    intro ks hok hnd k hk
    exact absurd hk (List.not_mem_nil k)
  | cons k' keys ih =>
    intro ks hok hnd k hk
    unfold collectKept at hok
    rcases hg : keptOfGroup F1 k' with e | l'
    · rw [hg] at hok
      exact Except.noConfusion hok
    · rw [hg] at hok
      rcases hr : collectKept F1 keys with e | rest
      · rw [hr] at hok
        exact Except.noConfusion hok
      · rw [hr] at hok
        injection hok with h'
        subst h'
        obtain ⟨hknotin, hndrest⟩ := List.nodup_cons.mp hnd
        rw [List.filter_append]
        rcases List.mem_cons.mp hk with rfl | hkrest
        · refine ⟨l', hg, ?_⟩
          have hfl : (l'.filter
              (fun i => decide (key (F1.getD i dFace) = k))) = l' := by
            rw [List.filter_eq_self]
            intro i hi
            have hkey := (keptOfGroup_keys F1 k l' hg i hi).2
            rw [hkey]
            simp
          have hfr : (rest.filter
              (fun i => decide (key (F1.getD i dFace) = k))) = [] := by
            rw [List.filter_eq_nil_iff]
            intro i hi
            obtain ⟨k'', hk'', l'', hl'', hil''⟩ :=
              collectKept_mem F1 keys rest hr i hi
            have hkey := (keptOfGroup_keys F1 k'' l'' hl'' i hil'').2
            have hne : k'' ≠ k := fun heq => hknotin (heq ▸ hk'')
            rw [hkey]
            simp [hne]
          rw [hfl, hfr, List.append_nil]
        · obtain ⟨l, hl, hfil⟩ := ih rest hr hndrest k hkrest
          refine ⟨l, hl, ?_⟩
          have hfl : (l'.filter
              (fun i => decide (key (F1.getD i dFace) = k))) = [] := by
            rw [List.filter_eq_nil_iff]
            intro i hi
            have hkey := (keptOfGroup_keys F1 k' l' hg i hi).2
            have hne : k' ≠ k := fun heq => hknotin (heq ▸ hkrest)
            rw [hkey]
            simp [hne]
          rw [hfl, hfil, List.nil_append]

/-- C1: under a successful run of the duplicate resolver, each unordered
vertex-triple group is resolved exactly as the decision table prescribes: a
singleton group keeps its sole facet, a group of signed count +1 keeps its
first consistent occurrence, signed count −1 keeps its first reversed
occurrence, and signed count 0 keeps nothing. -/
theorem dup_group_resolution (F1 : List Face) (k : Multiset ℕ) (ks : List ℕ)
    (hk : k ∈ faceKeys F1) (hok : keptIndices F1 = .ok ks) :
    (ucountsOf F1 k = 1 →
      ks.filter (fun i => decide (key (F1.getD i dFace) = k)) =
        [firstOccIdx F1 k]) ∧
    (ucountsOf F1 k ≠ 1 → countsOf F1 k = 1 →
      ∃ q, (members F1 k).find? (fun p => cyclicEq p.2 (repFace F1 k)) =
          some q ∧
        ks.filter (fun i => decide (key (F1.getD i dFace) = k)) = [q.1]) ∧
    (ucountsOf F1 k ≠ 1 → countsOf F1 k = -1 →
      ∃ q, (members F1 k).find? (fun p => !cyclicEq p.2 (repFace F1 k)) =
          some q ∧
        ks.filter (fun i => decide (key (F1.getD i dFace) = k)) = [q.1]) ∧
    (ucountsOf F1 k ≠ 1 → countsOf F1 k = 0 →
      ks.filter (fun i => decide (key (F1.getD i dFace) = k)) = []) := by
  obtain ⟨l, hl, hfil⟩ :=
    collectKept_filter F1 (faceKeys F1) ks hok (nodup_faceKeys F1) k hk
  refine ⟨?_, ?_, ?_, ?_⟩
  · intro h1
    have heq := keptOfGroup_of_ucounts_one F1 k h1
    rw [hl] at heq
    injection heq with h'
    rw [hfil, h']
  · intro h1 hc
    obtain ⟨q, hfind, heq⟩ := keptOfGroup_of_counts_one F1 k h1 hc
    rw [hl] at heq
    injection heq with h'
    exact ⟨q, hfind, hfil.trans h'⟩
  · intro h1 hc
    obtain ⟨q, hfind, heq⟩ := keptOfGroup_of_counts_negone F1 k h1 hc
    rw [hl] at heq
    injection heq with h'
    exact ⟨q, hfind, hfil.trans h'⟩
  · intro h1 hc
    have heq := keptOfGroup_of_counts_zero F1 k h1 hc
    rw [hl] at heq
    injection heq with h'
    rw [hfil, h']

/-- C1 witness: a facet list with a +1 group (kept first consistent), a 0
group (dropped), a singleton group (kept) and a −1 group (kept first
reversed), with the group of `(0,1,2)` resolved to its first occurrence. -/
theorem dup_group_resolution_witness :
    (({0, 1, 2} : Multiset ℕ) ∈ faceKeys
      [(0, 1, 2), (1, 2, 0), (2, 1, 0), (3, 4, 8), (8, 4, 3), (5, 6, 7),
       (10, 11, 12), (12, 11, 10), (11, 10, 12)]) ∧
    keptIndices
      [(0, 1, 2), (1, 2, 0), (2, 1, 0), (3, 4, 8), (8, 4, 3), (5, 6, 7),
       (10, 11, 12), (12, 11, 10), (11, 10, 12)] = .ok [0, 5, 7] ∧
    (ucountsOf
        [(0, 1, 2), (1, 2, 0), (2, 1, 0), (3, 4, 8), (8, 4, 3), (5, 6, 7),
         (10, 11, 12), (12, 11, 10), (11, 10, 12)] {0, 1, 2} ≠ 1 →
      countsOf
        [(0, 1, 2), (1, 2, 0), (2, 1, 0), (3, 4, 8), (8, 4, 3), (5, 6, 7),
         (10, 11, 12), (12, 11, 10), (11, 10, 12)] {0, 1, 2} = 1 →
      ∃ q, (members
          [(0, 1, 2), (1, 2, 0), (2, 1, 0), (3, 4, 8), (8, 4, 3), (5, 6, 7),
           (10, 11, 12), (12, 11, 10), (11, 10, 12)] {0, 1, 2}).find?
          (fun p => cyclicEq p.2 (repFace
            [(0, 1, 2), (1, 2, 0), (2, 1, 0), (3, 4, 8), (8, 4, 3), (5, 6, 7),
             (10, 11, 12), (12, 11, 10), (11, 10, 12)] {0, 1, 2})) = some q ∧
        ([0, 5, 7] : List ℕ).filter (fun i => decide (key
          (([(0, 1, 2), (1, 2, 0), (2, 1, 0), (3, 4, 8), (8, 4, 3), (5, 6, 7),
            (10, 11, 12), (12, 11, 10), (11, 10, 12)] : List Face).getD i
            dFace) = {0, 1, 2})) = [q.1]) :=
  ⟨by decide, by decide,
   (dup_group_resolution _ {0, 1, 2} [0, 5, 7] (by decide) (by decide)).2.1⟩

/-- C2: a duplicate group with more than one occurrence whose signed count
lies outside −1, 0, +1 makes the duplicate resolver fail with an error
instead of silently dropping the group or keeping an arbitrary member. -/
theorem dup_invariant_violation_errors (F1 : List Face) (J1 : List ℕ)
    (k : Multiset ℕ) (hk : k ∈ faceKeys F1) (hcard : 1 < ucountsOf F1 k)
    (hc1 : countsOf F1 k ≠ 1) (hcm1 : countsOf F1 k ≠ -1)
    (hc0 : countsOf F1 k ≠ 0) :
    ∃ e, resolve_duplicated_faces F1 J1 = .error e := by
  have herr := keptOfGroup_of_counts_other F1 k (by omega) hc1 hcm1 hc0
  obtain ⟨e', he'⟩ := collectKept_error F1 (faceKeys F1) k hk _ herr
  refine ⟨e', ?_⟩
  unfold resolve_duplicated_faces keptIndices
  rw [he']

/-- C2 witness: two occurrences of the same triple with the same cyclic
orientation give signed count +2, and the resolver errors. -/
theorem dup_invariant_violation_errors_witness :
    (({0, 1, 2} : Multiset ℕ) ∈ faceKeys [(0, 1, 2), (1, 2, 0)]) ∧
    1 < ucountsOf [(0, 1, 2), (1, 2, 0)] {0, 1, 2} ∧
    countsOf [(0, 1, 2), (1, 2, 0)] {0, 1, 2} ≠ 1 ∧
    countsOf [(0, 1, 2), (1, 2, 0)] {0, 1, 2} ≠ -1 ∧
    countsOf [(0, 1, 2), (1, 2, 0)] {0, 1, 2} ≠ 0 ∧
    ∃ e, resolve_duplicated_faces [(0, 1, 2), (1, 2, 0)] [4, 5] = .error e :=
  ⟨by decide, by decide, by decide, by decide, by decide,
   dup_invariant_violation_errors [(0, 1, 2), (1, 2, 0)] [4, 5] {0, 1, 2}
     (by decide) (by decide) (by decide) (by decide) (by decide)⟩

lemma cyclicEq_refl (f : Face) : cyclicEq f f = true := by
  simp [cyclicEq]

/-- C3 counterexample: a facet list containing the same vertex triple exactly
twice with matching orientation does NOT survive as one kept facet — the
signed count is +2, which fails the `assert(counts[i] == 0)` branch, so the
resolver errors instead of keeping exactly one occurrence. -/
theorem dup_same_orientation_pair_cex :
    resolve_duplicated_faces [(0, 1, 2), (0, 1, 2)] [0, 1] =
      .error (.assertFail "counts[i] == 0") := by decide

/-- C3 amended: a facet list holding the same triple exactly twice with
matching cyclic orientation has signed count +2 and is an invariant violation
(the resolver errors); the same triple twice with one occurrence reversed has
signed count 0, and neither facet survives (the output is empty). -/
theorem dup_pair_amended (f g : Face) (J1 : List ℕ) (hkey : key g = key f) :
    (cyclicEq g f = true →
      resolve_duplicated_faces [f, g] J1 =
        .error (.assertFail "counts[i] == 0")) ∧
    (cyclicEq g f = false →
      resolve_duplicated_faces [f, g] J1 = .ok ([], [])) := by
  have hkeys : faceKeys [f, g] = [key f] := by
    unfold faceKeys dedupFirst
    rw [List.map_cons, List.map_cons, List.map_nil]
    unfold dedupFirstAux
    rw [if_neg (List.not_mem_nil (key f))]
    unfold dedupFirstAux
    rw [if_pos (by rw [hkey]; exact List.mem_cons_self _ _)]
    rfl
  have hmem : members [f, g] (key f) = [(0, f), (1, g)] := by
    unfold members
    rw [show ([f, g] : List Face).length = 2 from rfl,
      show List.range 2 = [0, 1] from rfl]
    rw [List.filterMap_cons, List.filterMap_cons, List.filterMap_nil]
    rw [show ([f, g] : List Face).getD 0 dFace = f from rfl,
      show ([f, g] : List Face).getD 1 dFace = g from rfl]
    rw [if_pos rfl, if_pos hkey]
  have hrep : repFace [f, g] (key f) = f := by
    unfold repFace
    rw [hmem]
    rfl
  have hucounts : ucountsOf [f, g] (key f) = 2 := by
    unfold ucountsOf
    rw [hmem]
    rfl
  have hcounts : countsOf [f, g] (key f) =
      1 + (if cyclicEq g f then (1 : ℤ) else -1) := by
    unfold countsOf
    rw [hrep, hmem]
    rw [List.map_cons, List.map_cons, List.map_nil]
    rw [show (((0 : ℕ), f) : ℕ × Face).2 = f from rfl,
      show (((1 : ℕ), g) : ℕ × Face).2 = g from rfl,
      if_pos (cyclicEq_refl f)]
    simp
  constructor
  · intro hc
    have hcounts2 : countsOf [f, g] (key f) = 2 := by
      rw [hcounts, if_pos hc]
      norm_num
    have herr := keptOfGroup_of_counts_other [f, g] (key f)
      (by omega) (by omega) (by omega) (by omega)
    obtain ⟨e', he'⟩ := collectKept_error [f, g] (faceKeys [f, g]) (key f)
      (by rw [hkeys]; exact List.mem_singleton_self _) _ herr
    unfold resolve_duplicated_faces keptIndices
    rw [hkeys] at he' ⊢
    rw [he']
    unfold collectKept at he'
    rw [herr] at he'
    injection he' with h'
    rw [h']
  · intro hc
    have hcounts0 : countsOf [f, g] (key f) = 0 := by
      rw [hcounts, if_neg (by rw [hc]; exact Bool.false_ne_true)]
      ring
    have hkept := keptOfGroup_of_counts_zero [f, g] (key f)
      (by omega) hcounts0
    unfold resolve_duplicated_faces keptIndices
    rw [hkeys]
    unfold collectKept
    rw [hkept]
    unfold collectKept
    rfl

/-- C3 amended witness: the concrete matching-orientation pair `(0,1,2)`,
`(1,2,0)` errors, instantiating the amended pair theorem. -/
theorem dup_pair_amended_witness :
    key ((1, 2, 0) : Face) = key ((0, 1, 2) : Face) ∧
    cyclicEq (1, 2, 0) (0, 1, 2) = true ∧
    resolve_duplicated_faces [(0, 1, 2), (1, 2, 0)] [7, 8] =
      .error (.assertFail "counts[i] == 0") :=
  ⟨by decide, by decide,
   (dup_pair_amended (0, 1, 2) (1, 2, 0) [7, 8] (by decide)).1 (by decide)⟩

/-- C5 counterexample: survivors are NOT always emitted in their input
relative order.  On `[(0,1,2), (3,4,5), (0,2,1), (0,2,1)]` the survivors are
input facets 2 and 1, but the output lists facet 2 before facet 1 because the
signed-count −1 group of `(0,1,2)` comes first in group order and its kept
occurrence is the later reversed facet. -/
theorem dup_output_order_cex :
    resolve_duplicated_faces [(0, 1, 2), (3, 4, 5), (0, 2, 1), (0, 2, 1)]
        [10, 11, 12, 13] = .ok ([(0, 2, 1), (3, 4, 5)], [12, 11]) ∧
    keptIndices [(0, 1, 2), (3, 4, 5), (0, 2, 1), (0, 2, 1)] = .ok [2, 1] ∧
    ¬ ([2, 1] : List ℕ).Sorted (· ≤ ·) :=
  ⟨by decide, by decide, by decide⟩

/-- C5 amended: the duplicate resolver rebuilds the facet and provenance
buffers from the surviving facet indices only (each output row is copied from
a survivor), every survivor is the kept occurrence of some duplicate group,
and survivors are emitted in group order — which preserves input order only
when every group keeps its first occurrence, not in general. -/
theorem resolve_dup_rebuild_survivors (F1 : List Face) (J1 : List ℕ)
    (ks : List ℕ) (hok : keptIndices F1 = .ok ks) :
    resolve_duplicated_faces F1 J1 =
      .ok (ks.map (fun i => F1.getD i dFace),
           ks.map (fun i => J1.getD i 0)) ∧
    (∀ i ∈ ks, ∃ k ∈ faceKeys F1, ∃ l, keptOfGroup F1 k = .ok l ∧ i ∈ l) ∧
    ∀ i ∈ ks, i < F1.length := by
  refine ⟨?_, ?_, ?_⟩
  · unfold resolve_duplicated_faces
    rw [hok]
  · intro i hi
    exact collectKept_mem F1 (faceKeys F1) ks hok i hi
  · intro i hi
    obtain ⟨k, hk, l, hl, hil⟩ := collectKept_mem F1 (faceKeys F1) ks hok i hi
    exact (keptOfGroup_keys F1 k l hl i hil).1

/-- C5 amended witness: on the order counterexample input the resolver output
is rebuilt from the survivor indices `[2, 1]`. -/
theorem resolve_dup_rebuild_survivors_witness :
    keptIndices [(0, 1, 2), (3, 4, 5), (0, 2, 1), (0, 2, 1)] = .ok [2, 1] ∧
    resolve_duplicated_faces [(0, 1, 2), (3, 4, 5), (0, 2, 1), (0, 2, 1)]
        [10, 11, 12, 13] =
      .ok (([2, 1] : List ℕ).map (fun i =>
            ([(0, 1, 2), (3, 4, 5), (0, 2, 1), (0, 2, 1)] :
              List Face).getD i dFace),
           ([2, 1] : List ℕ).map (fun i =>
            ([10, 11, 12, 13] : List ℕ).getD i 0)) :=
  ⟨by decide,
   (resolve_dup_rebuild_survivors [(0, 1, 2), (3, 4, 5), (0, 2, 1), (0, 2, 1)]
     [10, 11, 12, 13] [2, 1] (by decide)).1⟩

lemma selectFaces_mem_idx (keep : ℤ → ℤ → ℤ) (Wr : List (ℤ × ℤ)) (s : ℤ)
    (hs : s ∈ selectFaces keep Wr) : s.natAbs - 1 < Wr.length := by
  unfold selectFaces at hs
  rw [List.mem_filterMap] at hs
  obtain ⟨j, hj, hfj⟩ := hs
  rw [List.mem_range] at hj
  by_cases h1 : 0 < keep (Wr.getD j (0, 0)).1 (Wr.getD j (0, 0)).2
  · rw [if_pos h1] at hfj
    injection hfj with h'
    subst h'
    omega
  · rw [if_neg h1] at hfj
    by_cases h2 : keep (Wr.getD j (0, 0)).1 (Wr.getD j (0, 0)).2 < 0
    · rw [if_pos h2] at hfj
      injection hfj with h'
      subst h'
      omega
    · rw [if_neg h2] at hfj
      exact absurd hfj (by simp)

lemma revFace_faceDistinct (f : Face) (h : faceDistinct f) :
    faceDistinct (revFace f) := by
  obtain ⟨h1, h2, h3⟩ := h
  exact ⟨fun he => h3 he.symm, fun he => h2 he.symm, fun he => h1 he.symm⟩

lemma revFace_faceInBounds (f : Face) (n : ℕ) (h : faceInBounds f n) :
    faceInBounds (revFace f) n := ⟨h.2.2, h.2.1, h.1⟩

lemma key_revFace (f : Face) : key (revFace f) = key f := by
  unfold key revFace
  simp only [Multiset.insert_eq_cons,
    show ∀ a : ℕ, ({a} : Multiset ℕ) = a ::ₘ 0 from fun a => rfl]
  rw [Multiset.cons_swap f.2.1 f.1, Multiset.cons_swap f.2.2 f.1,
    Multiset.cons_swap f.2.2 f.2.1]

lemma buildKept_mem (F : List Face) (CJ : List ℕ) (sel : List ℤ)
    (hlen : ∀ s ∈ sel, s.natAbs - 1 < F.length) (f : Face)
    (hf : f ∈ (buildKept F CJ sel).1) :
    ∃ g ∈ F, f = g ∨ f = revFace g := by
  unfold buildKept at hf
  rw [List.mem_map] at hf
  obtain ⟨s, hs, hfs⟩ := hf
  have hidx := hlen s hs
  have hgmem : F.getD (s.natAbs - 1) dFace ∈ F := by
    rw [List.getD_eq_getElem _ _ hidx]
    exact List.getElem_mem hidx
  by_cases hp : 0 < s
  · rw [if_pos hp] at hfs
    exact ⟨_, hgmem, Or.inl hfs.symm⟩
  · rw [if_neg hp] at hfs
    exact ⟨_, hgmem, Or.inr hfs.symm⟩

lemma padW_data_length (W : WMat) (nFB : ℕ) (W' : WMat)
    (h : padW W nFB = .ok W') : W'.data.length = W.data.length := by
  unfold padW at h
  by_cases h2 : W.cols = 2
  · rw [if_pos h2] at h
    by_cases hn : nFB ≠ 0
    · rw [if_pos hn] at h
      exact Except.noConfusion h
    · rw [if_neg hn] at h
      injection h with h'
      rw [← h']
      simp
  · rw [if_neg h2] at h
    by_cases h4 : W.cols = 4
    · rw [if_pos h4] at h
      injection h with h'
      rw [h']
    · rw [if_neg h4] at h
      exact Except.noConfusion h

lemma windPairs_length (op : ℤ → ℤ → ℤ) (W : WMat) :
    (windPairs op W).length = W.data.length := by
  unfold windPairs
  simp

lemma collectKept_pairwise (F1 : List Face) :
    ∀ (keys : List (Multiset ℕ)) (ks : List ℕ),
      collectKept F1 keys = .ok ks → keys.Nodup →
      ks.Pairwise (fun i j =>
        key (F1.getD i dFace) ≠ key (F1.getD j dFace)) := by
  intro keys
  induction keys with
  | nil =>
    intro ks hok hnd
    unfold collectKept at hok
    injection hok with h'
    subst h'
    exact List.Pairwise.nil
  | cons k keys ih =>
    intro ks hok hnd
    unfold collectKept at hok
    rcases hg : keptOfGroup F1 k with e | l
    · rw [hg] at hok
      exact Except.noConfusion hok
    · rw [hg] at hok
      rcases hr : collectKept F1 keys with e | rest
      · rw [hr] at hok
        exact Except.noConfusion hok
      · rw [hr] at hok
        injection hok with h'
        subst h'
        obtain ⟨hknotin, hndrest⟩ := List.nodup_cons.mp hnd
        rw [List.pairwise_append]
        refine ⟨?_, ih rest hr hndrest, ?_⟩
        · have hlen := (keptOfGroup_sound F1 k l hg).1
          rcases l with _ | ⟨a, _ | ⟨b, l⟩⟩
          · exact List.Pairwise.nil
          · exact List.pairwise_singleton _ _
          · exfalso
            simp at hlen
        · intro i hi j hj
          have hki := (keptOfGroup_keys F1 k l hg i hi).2
          obtain ⟨k'', hk'', l'', hl'', hjl''⟩ :=
            collectKept_mem F1 keys rest hr j hj
          have hkj := (keptOfGroup_keys F1 k'' l'' hl'' j hjl'').2
          rw [hki, hkj]
          exact fun heq => hknotin (heq ▸ hk'')

lemma resolve_dup_output (F1 : List Face) (J1 : List ℕ) (G : List Face)
    (J2 : List ℕ) (h : resolve_duplicated_faces F1 J1 = .ok (G, J2)) :
    (∀ f ∈ G, f ∈ F1) ∧ G.Pairwise (fun f g => key f ≠ key g) := by
  unfold resolve_duplicated_faces at h
  rcases hks : keptIndices F1 with e | ks
  · rw [hks] at h
    exact Except.noConfusion h
  · rw [hks] at h
    injection h with h'
    rw [Prod.mk.injEq] at h'
    obtain ⟨hG, hJ⟩ := h'
    have hcoll : collectKept F1 (faceKeys F1) = .ok ks := hks
    constructor
    · intro f hf
      rw [← hG, List.mem_map] at hf
      obtain ⟨i, hi, rfl⟩ := hf
      obtain ⟨k, hk, l, hl, hil⟩ :=
        collectKept_mem F1 (faceKeys F1) ks hcoll i hi
      have hlt := (keptOfGroup_keys F1 k l hl i hil).1
      rw [List.getD_eq_getElem _ _ hlt]
      exact List.getElem_mem hlt
    · rw [← hG, List.pairwise_map]
      exact collectKept_pairwise F1 (faceKeys F1) ks hcoll (nodup_faceKeys F1)

lemma mem_refVertices (n : ℕ) (F : List Face) (a : ℕ) :
    a ∈ refVertices n F ↔
      a < n ∧ ∃ f ∈ F, f.1 = a ∨ f.2.1 = a ∨ f.2.2 = a := by
  unfold refVertices
  rw [List.mem_filter, List.mem_range]
  simp [List.any_eq_true, or_assoc]

lemma mem_key_iff (f : Face) (x : ℕ) :
    x ∈ key f ↔ x = f.1 ∨ x = f.2.1 ∨ x = f.2.2 := by
  simp [key]

lemma key_mapFace (m : ℕ → ℕ) (f : Face) :
    key (mapFace m f) = (key f).map m := by
  simp [key, mapFace]

lemma indexOf_extend_inj (refs : List ℕ) :
    Function.Injective (fun a =>
      if a ∈ refs then refs.indexOf a else refs.length + a) := by
  intro a b hab
  simp only at hab
  by_cases ha : a ∈ refs
  · rw [if_pos ha] at hab
    by_cases hb : b ∈ refs
    · rw [if_pos hb] at hab
      exact (List.indexOf_inj ha hb).mp hab
    · rw [if_neg hb] at hab
      have h1 : refs.indexOf a < refs.length := List.indexOf_lt_length.mpr ha
      omega
  · rw [if_neg ha] at hab
    by_cases hb : b ∈ refs
    · rw [if_pos hb] at hab
      have h1 : refs.indexOf b < refs.length := List.indexOf_lt_length.mpr hb
      omega
    · rw [if_neg hb] at hab
      omega

lemma remove_unreferenced_sound (V : List Vertex) (F : List Face)
    (hbd : ∀ f ∈ F, faceDistinct f ∧ faceInBounds f V.length)
    (hp : F.Pairwise (fun f g => key f ≠ key g)) :
    (∀ f ∈ (remove_unreferenced V F).2, faceDistinct f ∧
      faceInBounds f (remove_unreferenced V F).1.length) ∧
    ((remove_unreferenced V F).2).Pairwise (fun f g => key f ≠ key g) := by
  have hrefs_mem : ∀ f ∈ F, f.1 ∈ refVertices V.length F ∧
      f.2.1 ∈ refVertices V.length F ∧ f.2.2 ∈ refVertices V.length F := by
    intro f hf
    obtain ⟨hd, hb⟩ := hbd f hf
    refine ⟨?_, ?_, ?_⟩ <;> rw [mem_refVertices]
    · exact ⟨hb.1, f, hf, Or.inl rfl⟩
    · exact ⟨hb.2.1, f, hf, Or.inr (Or.inl rfl)⟩
    · exact ⟨hb.2.2, f, hf, Or.inr (Or.inr rfl)⟩
  have hRU : remove_unreferenced V F =
      ((refVertices V.length F).map (fun i => V.getD i dVert),
       F.map (mapFace (fun i => (refVertices V.length F).indexOf i))) := rfl
  rw [hRU]
  constructor
  · intro f' hf'
    rw [List.mem_map] at hf'
    obtain ⟨f, hf, rfl⟩ := hf'
    obtain ⟨hd, hb⟩ := hbd f hf
    obtain ⟨hm1, hm2, hm3⟩ := hrefs_mem f hf
    constructor
    · refine ⟨?_, ?_, ?_⟩ <;> intro heq
      · exact hd.1 ((List.indexOf_inj hm1 hm2).mp heq)
      · exact hd.2.1 ((List.indexOf_inj hm1 hm3).mp heq)
      · exact hd.2.2 ((List.indexOf_inj hm2 hm3).mp heq)
    · have hlen : (((refVertices V.length F).map
          (fun i => V.getD i dVert)).length) =
          (refVertices V.length F).length := by simp
      rw [hlen]
      exact ⟨List.indexOf_lt_length.mpr hm1, List.indexOf_lt_length.mpr hm2,
        List.indexOf_lt_length.mpr hm3⟩
  · rw [List.pairwise_map]
    refine hp.imp_of_mem (fun {f g} hf hg hne => ?_)
    intro heq
    apply hne
    rw [key_mapFace, key_mapFace] at heq
    have hsub : ∀ h ∈ F, ∀ x ∈ key h, x ∈ refVertices V.length F := by
      intro h hh x hx
      rw [mem_key_iff] at hx
      obtain ⟨hm1, hm2, hm3⟩ := hrefs_mem h hh
      rcases hx with rfl | rfl | rfl <;> assumption
    have hext : ∀ h : Face, h ∈ F →
        (key h).map (fun i => (refVertices V.length F).indexOf i) =
        (key h).map (fun a =>
          if a ∈ refVertices V.length F then
            (refVertices V.length F).indexOf a
          else (refVertices V.length F).length + a) := by
      intro h hh
      refine Multiset.map_congr rfl (fun x hx => ?_)
      rw [if_pos (hsub h hh x hx)]
    rw [hext f hf, hext g hg] at heq
    exact Multiset.map_injective (indexOf_extend_inj _) heq

lemma pfwnbo_core_sound (op keep : ℤ → ℤ → ℤ) (resolve_fun : ResolveFunc)
    (propagate : PropagateFunc) (VA : List Vertex) (FA : List Face)
    (VB : List Vertex) (FB : List Face)
    (hres : ∀ f ∈ (resolve_intersections resolve_fun VA FA VB FB).2.1,
      faceDistinct f ∧
      faceInBounds f (resolve_intersections resolve_fun VA FA VB FB).1.length)
    (VC : List Vertex) (FC : List Face)
    (hok : pfwnbo_core op keep resolve_fun propagate VA FA VB FB =
      .ok (VC, FC)) :
    (∀ f ∈ FC, faceDistinct f ∧ faceInBounds f VC.length) ∧
    FC.Pairwise (fun f g => key f ≠ key g) := by
  simp only [pfwnbo_core] at hok
  set r := resolve_intersections resolve_fun VA FA VB FB with hr
  set Fr := r.2.1 with hFr
  set CJ := r.2.2 with hCJ
  set W0 := propagate r.1 Fr (mkLabels FA.length CJ) with hW0
  by_cases hWlen : W0.data.length ≠ Fr.length
  · rw [if_pos hWlen] at hok
    exact Except.noConfusion hok
  · rw [if_neg hWlen] at hok
    split at hok
    · exact Except.noConfusion hok
    · rename_i W hpad
      split at hok
      · exact Except.noConfusion hok
      · rename_i GJ hdup
        injection hok with h'
        have hWrlen : (windPairs op W).length = Fr.length := by
          rw [windPairs_length, padW_data_length W0 FB.length W hpad,
            not_ne_iff.mp hWlen]
        have hkeptmem : ∀ f ∈
            (buildKept Fr CJ (selectFaces keep (windPairs op W))).1,
            faceDistinct f ∧ faceInBounds f r.1.length := by
          intro f hf
          obtain ⟨g, hg, hfg⟩ := buildKept_mem Fr CJ _
            (fun s hs => by
              have h1 := selectFaces_mem_idx keep (windPairs op W) s hs
              rw [hWrlen] at h1
              exact h1) f hf
          obtain ⟨hd, hb⟩ := hres g hg
          rcases hfg with rfl | rfl
          · exact ⟨hd, hb⟩
          · exact ⟨revFace_faceDistinct g hd, revFace_faceInBounds g _ hb⟩
        obtain ⟨hGmem, hGpair⟩ := resolve_dup_output _ _ GJ.1 GJ.2
          (by rw [hdup])
        have hGbd : ∀ f ∈ GJ.1, faceDistinct f ∧ faceInBounds f r.1.length :=
          fun f hf => hkeptmem f (hGmem f hf)
        have hfin := remove_unreferenced_sound r.1 GJ.1 hGbd hGpair
        rw [h'] at hfin
        exact hfin

/-- C8: every successful `mesh_boolean` call on a resolver that honours its
contract (each resolved facet has three pairwise-distinct vertex indices,
each within the resolved vertex buffer's bounds) returns a mesh in which
every facet's three indices are pairwise distinct and below `|VC|`, and no
two facets share the same unordered vertex triple. -/
theorem mesh_boolean_output_invariants (resolve_fun : ResolveFunc)
    (propagate : PropagateFunc) (VA : List Vertex) (FA : List Face)
    (VB : List Vertex) (FB : List Face) (btype : ℕ) (J0 : List ℕ)
    (VC : List Vertex) (FC : List Face) (Jout : List ℕ)
    (hres : ∀ f ∈ (resolve_intersections resolve_fun VA FA VB FB).2.1,
      faceDistinct f ∧
      faceInBounds f (resolve_intersections resolve_fun VA FA VB FB).1.length)
    (hok : mesh_boolean resolve_fun propagate VA FA VB FB btype J0 =
      .ok ((VC, FC), Jout)) :
    (∀ f ∈ FC, faceDistinct f ∧ faceInBounds f VC.length) ∧
    FC.Pairwise (fun f g => key f ≠ key g) := by
  have hcore : mesh_boolean_core resolve_fun propagate VA FA VB FB btype =
      .ok (VC, FC) := by
    unfold mesh_boolean at hok
    rcases hc : mesh_boolean_core resolve_fun propagate VA FA VB FB btype
        with e | vf
    · rw [hc] at hok
      exact Except.noConfusion hok
    · rw [hc] at hok
      simp only [Except.map] at hok
      injection hok with h'
      rw [Prod.mk.injEq] at h'
      rw [h'.1]
  unfold mesh_boolean_core at hcore
  by_cases h0 : btype = MESH_BOOLEAN_TYPE_UNION
  · rw [if_pos h0] at hcore
    exact pfwnbo_core_sound _ _ _ _ _ _ _ _ hres VC FC hcore
  · rw [if_neg h0] at hcore
    by_cases h1 : btype = MESH_BOOLEAN_TYPE_INTERSECT
    · rw [if_pos h1] at hcore
      exact pfwnbo_core_sound _ _ _ _ _ _ _ _ hres VC FC hcore
    · rw [if_neg h1] at hcore
      by_cases h2 : btype = MESH_BOOLEAN_TYPE_MINUS
      · rw [if_pos h2] at hcore
        exact pfwnbo_core_sound _ _ _ _ _ _ _ _ hres VC FC hcore
      · rw [if_neg h2] at hcore
        by_cases h3 : btype = MESH_BOOLEAN_TYPE_XOR
        · rw [if_pos h3] at hcore
          exact pfwnbo_core_sound _ _ _ _ _ _ _ _ hres VC FC hcore
        · rw [if_neg h3] at hcore
          by_cases h4 : btype = MESH_BOOLEAN_TYPE_RESOLVE
          · rw [if_pos h4] at hcore
            exact pfwnbo_core_sound _ _ _ _ _ _ _ _ hres VC FC hcore
          · rw [if_neg h4] at hcore
            exact Except.noConfusion hcore

/-- C8 witness: a concrete single-triangle RESOLVE call whose resolver and
propagator are constant collaborators satisfying the contract. -/
theorem mesh_boolean_output_invariants_witness :
    (∀ f ∈ (resolve_intersections
        (fun _ _ => ([(0, 0, 0), (1, 0, 0), (0, 1, 0)], [(0, 1, 2)], [0]))
        [(0, 0, 0)] [] [] []).2.1,
      faceDistinct f ∧
      faceInBounds f (resolve_intersections
        (fun _ _ => ([(0, 0, 0), (1, 0, 0), (0, 1, 0)], [(0, 1, 2)], [0]))
        [(0, 0, 0)] [] [] []).1.length) ∧
    mesh_boolean
      (fun _ _ => ([(0, 0, 0), (1, 0, 0), (0, 1, 0)], [(0, 1, 2)], [0]))
      (fun _ F _ => ⟨4, F.map (fun _ => [0, 0, 0, 0])⟩)
      [(0, 0, 0)] [] [] [] MESH_BOOLEAN_TYPE_RESOLVE [] =
      .ok ((([(0, 0, 0), (1, 0, 0), (0, 1, 0)] : List Vertex),
            ([(0, 1, 2)] : List Face)), []) ∧
    ((∀ f ∈ ([(0, 1, 2)] : List Face), faceDistinct f ∧
      faceInBounds f ([(0, 0, 0), (1, 0, 0), (0, 1, 0)] :
        List Vertex).length) ∧
     ([(0, 1, 2)] : List Face).Pairwise (fun f g => key f ≠ key g)) :=
  ⟨fun f hf => by
     have hf' : f ∈ ([((0 : ℕ), (1 : ℕ), (2 : ℕ))] : List Face) := hf
     rw [List.mem_singleton] at hf'
     subst hf'
     exact ⟨⟨by decide, by decide, by decide⟩, ⟨by decide, by decide, by decide⟩⟩,
   by decide,
   mesh_boolean_output_invariants
     (fun _ _ => ([(0, 0, 0), (1, 0, 0), (0, 1, 0)], [(0, 1, 2)], [0]))
     (fun _ F _ => ⟨4, F.map (fun _ => [0, 0, 0, 0])⟩)
     [(0, 0, 0)] [] [] [] MESH_BOOLEAN_TYPE_RESOLVE []
     [(0, 0, 0), (1, 0, 0), (0, 1, 0)] [(0, 1, 2)] []
     (fun f hf => by
       have hf' : f ∈ ([((0 : ℕ), (1 : ℕ), (2 : ℕ))] : List Face) := hf
       rw [List.mem_singleton] at hf'
       subst hf'
       exact ⟨⟨by decide, by decide, by decide⟩,
         ⟨by decide, by decide, by decide⟩⟩)
     (by decide)⟩

/-- C10: the overload without a provenance output computes exactly the same
result mesh as the provenance-returning overload — it forwards with a fresh
provenance vector and discards it, changing nothing else. -/
theorem no_provenance_overload_equiv (igl_res : ResolveFunc)
    (propagate : PropagateFunc) (VA : List Vertex) (FA : List Face)
    (VB : List Vertex) (FB : List Face) (btype : ℕ) (J0 : List ℕ) :
    mesh_boolean_no_provenance igl_res propagate VA FA VB FB btype =
      (mesh_boolean_default_resolve igl_res propagate VA FA VB FB btype
        J0).map (fun r => r.1) := by
  unfold mesh_boolean_no_provenance mesh_boolean_default_resolve mesh_boolean
  cases mesh_boolean_core igl_res propagate VA FA VB FB btype <;>
    simp [Except.map]

end IglBoolean
